import Mathlib

/-!
# Verification of the protokoll-format versioned-document engine

A shallow embedding of the `@redaksjon/protokoll-format` package: a SQLite-backed
document format storing an evolving transcript text, typed metadata, a reversible
diff log of content changes, an audit trail, a write-once artifact store and an
enhancement log.  Pure Lean functions mirror the TypeScript source
(`schema.ts`, `database.ts`, `history.ts`, `metadata.ts`, `audit.ts`,
`artifacts.ts`, `enhancementLog.ts`, `transcript.ts`); SQLite state is modelled
as explicit record-of-lists state passing, JavaScript exceptions as `Except`,
and `Date.now` timestamps as a logical clock.
-/

namespace Protokoll

/-- Decidable equality for `Except` results, so concrete runs can be settled
by `decide`. -/
instance instDecEqExcept [DecidableEq e] [DecidableEq a] : DecidableEq (Except e a) := fun x y =>
  match x, y with
  | Except.ok u, Except.ok v =>
    if h : u = v then isTrue (by rw [h]) else isFalse (by intro hh; cases hh; exact h rfl)
  | Except.error u, Except.error v =>
    if h : u = v then isTrue (by rw [h]) else isFalse (by intro hh; cases hh; exact h rfl)
  | Except.ok _, Except.error _ => isFalse (by intro hh; cases hh)
  | Except.error _, Except.ok _ => isFalse (by intro hh; cases hh)

/-! ## String helpers

Executable char-list based helpers used throughout the embedding
(`String.splitOn`, `String.startsWith` and friends from core do not reduce
well inside the kernel, so the embedding works on `List Char` directly).
-/

/-- Split a string at newline characters, like the JavaScript
`patch.split('\n')`: a trailing newline yields a trailing empty piece. -/
def splitLinesAux : List Char → List Char → List String
  | [], acc => [String.mk acc.reverse]
  | c :: rest, acc =>
    if c = '\n' then String.mk acc.reverse :: splitLinesAux rest []
    else splitLinesAux rest (c :: acc)

/-- Split a string into its newline-separated lines. -/
def splitLines (s : String) : List String := splitLinesAux s.toList []

/-- Join lines with newlines; the inverse of `splitLines`, like
`lines.join('\n')`. -/
def joinLines (ls : List String) : String := String.intercalate "\n" ls

/-- Does `s` start with the literal character sequence `lit`? -/
def strStarts (s : String) (lit : List Char) : Bool := lit.isPrefixOf s.toList

/-- Drop the first `n` characters of `s` (like JavaScript `s.slice(n)`). -/
def strDropChars (s : String) (n : Nat) : String := String.mk (s.toList.drop n)

/-- Decimal digit character for `n % 10`. -/
def digitChar (n : Nat) : Char := Char.ofNat (48 + n % 10)

/-- Fuel-driven decimal digit list (fuel keeps the recursion structural so the
kernel can evaluate it). -/
def natDigitsAux : Nat → Nat → List Char
  | 0, _ => []
  | fuel + 1, n => if n < 10 then [digitChar n] else natDigitsAux fuel (n / 10) ++ [digitChar n]

/-- Render a natural number in decimal. -/
def natToStr (n : Nat) : String := String.mk (natDigitsAux (n + 1) n)

/-- Parse a nonempty decimal digit string. -/
def digitsToNat (cs : List Char) : Nat :=
  cs.foldl (fun acc c => acc * 10 + (c.toNat - 48)) 0

/-- Is `c` a decimal digit? -/
def isDigitCh (c : Char) : Bool := 48 ≤ c.toNat ∧ c.toNat ≤ 57

/-- Bytewise (code-point) lexicographic comparison of char lists, modelling
SQLite's BINARY collation used by `ORDER BY` on `TEXT` columns. -/
def leChars : List Char → List Char → Bool
  | [], _ => true
  | _ :: _, [] => false
  | a :: as, b :: bs =>
    if a.toNat = b.toNat then leChars as bs
    else decide (a.toNat < b.toNat)

/-- Lexicographic string comparison (SQLite `ORDER BY ... ASC` on text). -/
def leStr (s t : String) : Bool := leChars s.toList t.toList

theorem leChars_total : ∀ a b : List Char, leChars a b = true ∨ leChars b a = true := by
  intro a
  induction a with
  | nil => intro b; left; rfl
  | cons x xs ih =>
    intro b
    cases b with
    | nil => right; rfl
    | cons y ys =>
      by_cases hxy : x.toNat = y.toNat
      · rcases ih ys with h | h
        · left; simp [leChars, hxy, h]
        · right; simp [leChars, hxy.symm, h]
      · rcases Nat.lt_or_ge x.toNat y.toNat with h | h
        · left; simp [leChars, hxy, h]
        · have hyx : ¬ y.toNat = x.toNat := fun hh => hxy hh.symm
          have : y.toNat < x.toNat := lt_of_le_of_ne h hyx
          right; simp [leChars, hyx, this]

theorem leChars_trans : ∀ a b c : List Char,
    leChars a b = true → leChars b c = true → leChars a c = true := by
  intro a
  induction a with
  | nil => intro b c _ _; rfl
  | cons x xs ih =>
    intro b c hab hbc
    cases b with
    | nil => simp [leChars] at hab
    | cons y ys =>
      cases c with
      | nil => simp [leChars] at hbc
      | cons z zs =>
        by_cases hxy : x.toNat = y.toNat
        · by_cases hyz : y.toNat = z.toNat
          · have hxz : x.toNat = z.toNat := hxy.trans hyz
            simp [leChars, hxy] at hab
            simp [leChars, hyz] at hbc
            simp [leChars, hxz]
            exact ih ys zs hab hbc
          · simp [leChars, hyz] at hbc
            have hxz : x.toNat < z.toNat := hxy ▸ hbc
            have hxz' : ¬ x.toNat = z.toNat := Nat.ne_of_lt hxz
            simp [leChars, hxz', hxz]
        · simp [leChars, hxy] at hab
          by_cases hyz : y.toNat = z.toNat
          · have hxz : x.toNat < z.toNat := hyz ▸ hab
            have hxz' : ¬ x.toNat = z.toNat := Nat.ne_of_lt hxz
            simp [leChars, hxz', hxz]
          · simp [leChars, hyz] at hbc
            have hxz : x.toNat < z.toNat := Nat.lt_trans hab hbc
            have hxz' : ¬ x.toNat = z.toNat := Nat.ne_of_lt hxz
            simp [leChars, hxz', hxz]

/-! ## Generic stable insertion sort by a boolean comparator

Models SQL `ORDER BY`: stable, total order given a total transitive comparator.
-/

/-- Insert `a` into `l` before the first element `b` with `¬ leb a b`. -/
def insertLe (leb : α → α → Bool) (a : α) : List α → List α
  | [] => [a]
  | b :: bs => if leb a b then a :: b :: bs else b :: insertLe leb a bs

/-- Stable insertion sort by a boolean comparator. -/
def sortByLe (leb : α → α → Bool) : List α → List α
  | [] => []
  | a :: as => insertLe leb a (sortByLe leb as)

theorem perm_insertLe (leb : α → α → Bool) (a : α) :
    ∀ l : List α, (insertLe leb a l).Perm (a :: l) := by
  intro l
  induction l with
  | nil => simp [insertLe]
  | cons b bs ih =>
    by_cases h : leb a b
    · simp [insertLe, h]
    · simp only [insertLe, h, if_neg]
      exact (List.Perm.cons b ih).trans (List.Perm.swap a b bs)

theorem perm_sortByLe (leb : α → α → Bool) :
    ∀ l : List α, (sortByLe leb l).Perm l := by
  intro l
  induction l with
  | nil => exact List.Perm.refl []
  | cons a as ih =>
    exact (perm_insertLe leb a (sortByLe leb as)).trans (List.Perm.cons a ih)

/-- Sortedness as pairwise comparator truth. -/
def SortedLe (leb : α → α → Bool) (l : List α) : Prop :=
  l.Pairwise (fun a b => leb a b = true)

theorem sorted_insertLe (leb : α → α → Bool)
    (htot : ∀ a b, leb a b = true ∨ leb b a = true)
    (htr : ∀ a b c, leb a b = true → leb b c = true → leb a c = true)
    (a : α) : ∀ l : List α, SortedLe leb l → SortedLe leb (insertLe leb a l) := by
  intro l
  induction l with
  | nil => intro _; simp [insertLe, SortedLe]
  | cons b bs ih =>
    intro hs
    have hb : ∀ x ∈ bs, leb b x = true := by
      intro x hx
      exact (List.pairwise_cons.mp hs).1 x hx
    have hbs : SortedLe leb bs := (List.pairwise_cons.mp hs).2
    by_cases h : leb a b
    · simp only [insertLe, h, if_pos]
      refine List.pairwise_cons.mpr ⟨?_, hs⟩
      intro x hx
      rcases List.mem_cons.mp hx with hx | hx
      · rw [hx]; exact h
      · exact htr a b x h (hb x hx)
    · simp only [insertLe, h, if_neg]
      refine List.pairwise_cons.mpr ⟨?_, ih hbs⟩
      intro x hx
      have hba : leb b a = true := by
        rcases htot a b with h' | h'
        · exact absurd h' h
        · exact h'
      have hmem := (perm_insertLe leb a bs).mem_iff.mp hx
      rcases List.mem_cons.mp hmem with hx' | hx'
      · rw [hx']; exact hba
      · exact hb x hx'

theorem sorted_sortByLe (leb : α → α → Bool)
    (htot : ∀ a b, leb a b = true ∨ leb b a = true)
    (htr : ∀ a b c, leb a b = true → leb b c = true → leb a c = true) :
    ∀ l : List α, SortedLe leb (sortByLe leb l) := by
  intro l
  induction l with
  | nil => simp [sortByLe, SortedLe]
  | cons a as ih => exact sorted_insertLe leb htot htr a (sortByLe leb as) ih

/-! ## Unified line diffs

`createPatch` and `applyPatch` come from the external `diff` (jsdiff) library,
which the repository consumes but does not contain.

Modelled from the spec: `saveChange` "computes a unified line diff (3 lines of
context) from old→new", reconstruction "appl[ies]" patches and "a patch that
fails to apply against its expected prior text" is the failure case.  We model
the library as an LCS-based line diff rendered in unified-patch text form
(header lines, one `@@ -a,b +c,d @@` hunk trimmed to three context lines, body
lines prefixed `' '`/`'-'`/`'+'`), and strict application that fails (returns
`none`) whenever a context or removal line does not match the text it is
applied to.
-/

/-- One line-level diff operation. -/
inductive DiffOp
  | keep (l : String)
  | del (l : String)
  | ins (l : String)
deriving DecidableEq

/-- Longest common subsequence of two line lists (fuel keeps the recursion
structural so the kernel can evaluate it; fuel is always sufficient). -/
def lcsAux : Nat → List String → List String → List String
  | 0, _, _ => []
  | _ + 1, [], _ => []
  | _ + 1, _ :: _, [] => []
  | fuel + 1, a :: as, b :: bs =>
    if a = b then a :: lcsAux fuel as bs
    else
      let l1 := lcsAux fuel as (b :: bs)
      let l2 := lcsAux fuel (a :: as) bs
      if l2.length ≤ l1.length then l1 else l2

/-- Longest common subsequence of two line lists. -/
def lcs (a b : List String) : List String := lcsAux (a.length + b.length) a b

/-- Turn the two line lists and their common subsequence into an operation
sequence; removals precede additions inside each change block, as in the
library's output. -/
def diffBodyAux : Nat → List String → List String → List String → List DiffOp
  | 0, old, new, _ => old.map DiffOp.del ++ new.map DiffOp.ins
  | _ + 1, old, new, [] => old.map DiffOp.del ++ new.map DiffOp.ins
  | fuel + 1, old, new, c :: cs =>
    match old with
    | [] => new.map DiffOp.ins
    | o :: os =>
      if o ≠ c then DiffOp.del o :: diffBodyAux fuel os new (c :: cs)
      else
        match new with
        | [] => DiffOp.del o :: diffBodyAux fuel os [] (c :: cs)
        | n :: ns =>
          if n ≠ c then DiffOp.ins n :: diffBodyAux fuel (o :: os) ns (c :: cs)
          else DiffOp.keep c :: diffBodyAux fuel os ns cs

/-- Diff two line lists into keep/del/ins operations. -/
def diffOps (old new : List String) : List DiffOp :=
  diffBodyAux (old.length + new.length + 1) old new (lcs old new)

/-- Is this a context (unchanged) operation? -/
def isKeep : DiffOp → Bool
  | DiffOp.keep _ => true
  | _ => false

/-- Does the operation consume a line of the old text? -/
def usesOldLine : DiffOp → Bool
  | DiffOp.keep _ => true
  | DiffOp.del _ => true
  | DiffOp.ins _ => false

/-- Does the operation produce a line of the new text? -/
def usesNewLine : DiffOp → Bool
  | DiffOp.keep _ => true
  | DiffOp.del _ => false
  | DiffOp.ins _ => true

/-- Render one operation as a patch body line. -/
def renderOp : DiffOp → String
  | DiffOp.keep l => " " ++ l
  | DiffOp.del l => "-" ++ l
  | DiffOp.ins l => "+" ++ l

/-- The `===` banner line the library places under `Index:`. -/
def eqBanner : String := String.mk (List.replicate 67 '=')

/-- Modelled from the spec: the library's `createPatch('content', old, new,
'', '', { context: 3 })` — a unified line diff with 3 lines of context, with
`Index:`/banner/`---`/`+++` header lines and a single `@@ -a,b +c,d @@` hunk
covering all changes (the library splits widely separated changes into several
hunks; no reachable claim needs that case). -/
def createPatch (oldStr newStr : String) : String :=
  let oldL := splitLines oldStr
  let newL := splitLines newStr
  let ops := diffOps oldL newL
  let headerLines := ["Index: content", eqBanner, "--- content", "+++ content"]
  if ops.all isKeep then joinLines headerLines ++ "\n"
  else
    let pre := (ops.takeWhile isKeep).length
    let post := (ops.reverse.takeWhile isKeep).length
    let dropPre := pre - 3
    let dropPost := post - 3
    let mid := (ops.drop dropPre).take (ops.length - dropPre - dropPost)
    let oldCount := (mid.filter usesOldLine).length
    let newCount := (mid.filter usesNewLine).length
    let hunkHeader := "@@ -" ++ natToStr (dropPre + 1) ++ "," ++ natToStr oldCount ++
      " +" ++ natToStr (dropPre + 1) ++ "," ++ natToStr newCount ++ " @@"
    joinLines (headerLines ++ [hunkHeader] ++ mid.map renderOp) ++ "\n"

/-- Match a literal character sequence at the head, returning the rest. -/
def matchLit : List Char → List Char → Option (List Char)
  | [], cs => some cs
  | _ :: _, [] => none
  | l :: ls, c :: cs => if c = l then matchLit ls cs else none

/-- Parse a hunk header of the form `@@ -a[,b] +c[,d] @@`, returning the four
digit groups as strings (empty string for an absent count), mirroring the
source regex `@@ -(\d+),?(\d*) \+(\d+),?(\d*) @@` on the header shapes the
library emits. -/
def parseHunkHeader (s : String) : Option (String × String × String × String) := do
  let cs0 ← matchLit ['@', '@', ' ', '-'] s.toList
  let d1 := cs0.takeWhile isDigitCh
  let cs1 := cs0.dropWhile isDigitCh
  if d1.isEmpty then none
  else
    let cs2 := match cs1 with
      | ',' :: rest => rest
      | _ => cs1
    let d2 := cs2.takeWhile isDigitCh
    let cs3 := cs2.dropWhile isDigitCh
    let cs4 ← matchLit [' ', '+'] cs3
    let d3 := cs4.takeWhile isDigitCh
    let cs5 := cs4.dropWhile isDigitCh
    if d3.isEmpty then none
    else
      let cs6 := match cs5 with
        | ',' :: rest => rest
        | _ => cs5
      let d4 := cs6.takeWhile isDigitCh
      let cs7 := cs6.dropWhile isDigitCh
      let _ ← matchLit [' ', '@', '@'] cs7
      pure (String.mk d1, String.mk d2, String.mk d3, String.mk d4)

/-- Reverse one patch line, mirroring the body of the loop in
`HistoryManager.reversePatch` (`history.ts`): swap the `---`/`+++` file
headers (the JS `line.replace('---', '+++')` replaces the first occurrence,
which for a line starting with `---` is its head), swap `-`/`+` body
prefixes, and swap the two range pairs of an `@@` hunk header, keeping the
source's cross-guards (`oldCount` guards the new pair and vice versa). -/
def reverseLine (line : String) : String :=
  if strStarts line ['-', '-', '-'] then "+++" ++ strDropChars line 3
  else if strStarts line ['+', '+', '+'] then "---" ++ strDropChars line 3
  else if strStarts line ['-'] then "+" ++ strDropChars line 1
  else if strStarts line ['+'] then "-" ++ strDropChars line 1
  else if strStarts line ['@', '@'] then
    match parseHunkHeader line with
    | some (oldStart, oldCount, newStart, newCount) =>
      let oldPart := if oldCount ≠ "" then newStart ++ "," ++ newCount else newStart
      let newPart := if newCount ≠ "" then oldStart ++ "," ++ oldCount else oldStart
      "@@ -" ++ oldPart ++ " +" ++ newPart ++ " @@"
    | none => line
  else line

/-- `HistoryManager.reversePatch` (`history.ts`): structural reversal of a
unified diff by per-line text surgery. -/
def reversePatch (patch : String) : String :=
  joinLines ((splitLines patch).map reverseLine)

/-- One parsed hunk: 1-based start line in the old text, and raw body lines. -/
structure Hunk where
  oldStart : Nat
  lines : List String
deriving DecidableEq

/-- A line belonging to a hunk body: context, addition, removal, or a
`\ No newline at end of file` marker. -/
def isHunkBodyLine (l : String) : Bool :=
  strStarts l [' '] || strStarts l ['+'] || strStarts l ['-'] || strStarts l ['\\']

/-- Modelled from the spec (library `parsePatch`): collect the `@@` hunks of a
patch text, skipping header lines; `none` on a malformed hunk header. -/
def parseHunksAux : Nat → List String → Option (List Hunk)
  | 0, _ => some []
  | _ + 1, [] => some []
  | fuel + 1, l :: rest =>
    if strStarts l ['@', '@'] then
      match parseHunkHeader l with
      | none => none
      | some (oldStart, _, _, _) =>
        let body := rest.takeWhile isHunkBodyLine
        let rest1 := rest.dropWhile isHunkBodyLine
        match parseHunksAux fuel rest1 with
        | none => none
        | some hs => some (⟨digitsToNat oldStart.toList, body⟩ :: hs)
    else parseHunksAux fuel rest

/-- Parse all hunks of a patch text. -/
def parseHunks (lines : List String) : Option (List Hunk) :=
  parseHunksAux (lines.length + 1) lines

/-- Apply a hunk body to the suffix of the text it addresses: context and
removal lines must match the current line exactly, else the application
fails. -/
def applyHunkBody : List String → List String → Option (List String)
  | rest, [] => some rest
  | rest, bl :: bls =>
    if strStarts bl [' '] then
      match rest with
      | [] => none
      | r :: rs =>
        if r = strDropChars bl 1 then (applyHunkBody rs bls).map (r :: ·) else none
    else if strStarts bl ['-'] then
      match rest with
      | [] => none
      | r :: rs => if r = strDropChars bl 1 then applyHunkBody rs bls else none
    else if strStarts bl ['+'] then (applyHunkBody rest bls).map (strDropChars bl 1 :: ·)
    else if strStarts bl ['\\'] then applyHunkBody rest bls
    else none

/-- Net line-count change of a hunk body (additions minus removals), used to
shift the positions of later hunks. -/
def hunkDelta (body : List String) : Int :=
  Int.ofNat (body.filter (fun l => strStarts l ['+'])).length -
    Int.ofNat (body.filter (fun l =>
      strStarts l ['-'] ∧ ¬ strStarts l ['-', '-', '-'])).length

/-- Apply hunks in order, shifting each start by the accumulated delta. -/
def applyHunksAux : List Hunk → List String → Int → Option (List String)
  | [], textL, _ => some textL
  | h :: hs, textL, delta =>
    let pos := (Int.ofNat h.oldStart - 1 + delta).toNat
    if textL.length < pos then none
    else
      match applyHunkBody (textL.drop pos) h.lines with
      | none => none
      | some out =>
        applyHunksAux hs (textL.take pos ++ out) (delta + hunkDelta h.lines)

/-- Modelled from the spec (library `applyPatch` with default strictness): parse
the patch and apply its hunks to the content; `none` models the library's
`false` result when a patch fails to apply against its expected prior text. -/
def applyPatch (content patch : String) : Option String :=
  match parseHunks (splitLines patch) with
  | none => none
  | some hunks => (applyHunksAux hunks (splitLines content) 0).map joinLines

/-! ## JavaScript values

Metadata fields and artifact metadata hold JavaScript values.  The embedding
represents each value by its kind together with its canonical JSON rendering:
strings, numbers (kept as their decimal text), `Date` objects (kept as their
ISO-8601 text; `JSON.stringify` of a `Date` is its quoted ISO text), and
objects/arrays (kept as their canonical `JSON.stringify` text — for values that
round-trip through this store, `JSON.parse` followed by `JSON.stringify`, with
ISO date rehydration, reproduces the stored text).  String escaping is elided:
the claims never exercise strings containing quotes or backslashes.
-/

/-- A JavaScript value as visible to this package's codecs. -/
inductive JVal
  | str (s : String)
  | num (s : String)
  | date (iso : String)
  | obj (canonical : String)
deriving DecidableEq

/-- `JSON.stringify` of a defined value. -/
def serializeJ : JVal → String
  | JVal.str s => "\"" ++ s ++ "\""
  | JVal.num s => s
  | JVal.date iso => "\"" ++ iso ++ "\""
  | JVal.obj c => c

/-- `JSON.stringify` of a possibly-`undefined` value (`undefined` stays
`undefined`, modelled as `none`). -/
def serializeOptJ : Option JVal → Option String
  | none => none
  | some v => some (serializeJ v)

/-- Look up a key in an association list (a JS object used as a map). -/
def lookupAssoc (l : List (String × α)) (k : String) : Option α :=
  match l.find? (fun p => p.1 = k) with
  | some p => some p.2
  | none => none

/-! ## Database state

One `.pkl` file.  Row ids model SQLite `AUTOINCREMENT`; `clock` is a logical
timestamp standing in for `datetime('now')` in `created_at`/`updated_at`
columns (strictly monotone, where the real clock has second granularity).
-/

/-- A row of the `content` table. -/
structure ContentRow where
  id : Nat
  ctype : String
  text : String
  updatedAt : Nat
deriving DecidableEq

/-- A row of the `content_history` table. -/
structure HistoryRow where
  id : Nat
  contentId : Nat
  diff : String
  createdAt : Nat
deriving DecidableEq

/-- A row of the `audit_log` table (`old_value`/`new_value` are JSON text or
SQL NULL). -/
structure AuditRow where
  id : Nat
  field : String
  oldValue : Option String
  newValue : Option String
  changedAt : Nat
deriving DecidableEq

/-- A row of the `artifacts` table.  The BLOB column is modelled as the UTF-8
text it carries; the JSON metadata column as a parsed key→rendered-value
list. -/
structure ArtifactRow where
  id : Nat
  atype : String
  data : Option String
  metadata : Option (List (String × String))
  createdAt : Nat
deriving DecidableEq

/-- A row of the `enhancement_log` table (`timestamp` is the caller-supplied
ISO-8601 text; `details`/`entities` are JSON text or NULL). -/
structure EnhRow where
  id : Nat
  timestamp : String
  phase : String
  action : String
  details : Option String
  entities : Option String
deriving DecidableEq

/-- The database state of one document file. -/
structure Db where
  metadataRows : List (String × String) := []
  contentRows : List ContentRow := []
  historyRows : List HistoryRow := []
  auditRows : List AuditRow := []
  artifactRows : List ArtifactRow := []
  enhRows : List EnhRow := []
  nextContentId : Nat := 1
  nextHistoryId : Nat := 1
  nextAuditId : Nat := 1
  nextEnhId : Nat := 1
  nextArtifactId : Nat := 1
  clock : Nat := 0
deriving DecidableEq

/-! ## Schema manager (`schema.ts`) -/

/-- The tables created by the `SCHEMA_V1` DDL (`schema.ts`): the six `CREATE
TABLE IF NOT EXISTS` statements.  Note that no `enhancement_log` table is
among them. -/
def SCHEMA_V1_TABLES : List String :=
  ["metadata", "content", "content_history", "audit_log", "artifacts", "schema_version"]

/-- The `requiredTables` list of `validateSchema` (`schema.ts`). -/
def REQUIRED_TABLES : List String :=
  ["metadata", "content", "content_history", "audit_log", "artifacts", "schema_version"]

/-- Modelled from the spec: the logical relations of the persisted layout
(spec §6 "Persisted layout"), which include the enhancement-log relation. -/
def EXTERNAL_LAYOUT_RELATIONS : List String :=
  ["metadata", "content", "content_history", "audit_log", "artifacts",
   "enhancement_log", "schema_version"]

/-- The table set after `initializeSchema` runs the `SCHEMA_V1` DDL on a
database holding `existing` tables (`CREATE TABLE IF NOT EXISTS`). -/
def initSchemaTables (existing : List String) : List String :=
  existing ++ SCHEMA_V1_TABLES.filter (fun t => ¬ existing.contains t)

/-- The table set of a freshly created document file (`openDatabase` on a new
file runs `initializeSchema`). -/
def freshDocumentTables : List String := initSchemaTables []

/-- `validateSchema` (`schema.ts`): report whether every required table is
present, plus the list of error messages for missing ones. -/
def validateSchema (tables : List String) : Bool × List String :=
  let errors := (REQUIRED_TABLES.filter (fun t => ¬ tables.contains t)).map
    (fun t => "Missing required table: " ++ t)
  (errors.isEmpty, errors)

/-- A SQLite-level failure surfaced to JavaScript as a thrown error. -/
inductive SqlError
  | noSuchTable (name : String)
deriving DecidableEq

/-- An `INSERT INTO enhancement_log ...` as issued by
`EnhancementLogManager.logStep` (`enhancementLog.ts`), run against a database
whose table set is `tables`: SQLite throws `no such table` when the target
table does not exist. -/
def logStepInsert (tables : List String) (db : Db) (timestamp phase action : String)
    (details entities : Option String) : Except SqlError Db :=
  if tables.contains "enhancement_log" then
    Except.ok { db with
      enhRows := db.enhRows ++
        [⟨db.nextEnhId, timestamp, phase, action, details, entities⟩],
      nextEnhId := db.nextEnhId + 1 }
  else Except.error (SqlError.noSuchTable "enhancement_log")

/-! ## Content history engine (`history.ts`, class `HistoryManager`) -/

namespace HistoryManager

/-- `saveContentChange`: no-op when the texts are identical, otherwise append
one immutable diff row holding `createPatch('content', old, new, '', '',
{ context: 3 })`. -/
def saveContentChange (db : Db) (contentId : Nat) (oldText newText : String) : Db :=
  if oldText = newText then db
  else
    { db with
      historyRows := db.historyRows ++
        [⟨db.nextHistoryId, contentId, createPatch oldText newText, db.clock⟩],
      nextHistoryId := db.nextHistoryId + 1,
      clock := db.clock + 1 }

/-- `getContentHistory`: all diffs of the stream, `ORDER BY created_at ASC`. -/
def getContentHistory (db : Db) (contentId : Nat) : List HistoryRow :=
  sortByLe (fun a b => decide (a.createdAt ≤ b.createdAt))
    (db.historyRows.filter (fun r => r.contentId = contentId))

/-- `getVersionCount`: `SELECT COUNT(*) ... WHERE content_id = ?`. -/
def getVersionCount (db : Db) (contentId : Nat) : Nat :=
  (db.historyRows.filter (fun r => r.contentId = contentId)).length

/-- `reconstructContentAtVersion`: `null` when the stream does not exist;
otherwise start from the current text and walk the diffs with id greater than
`versionId` in descending id order, applying each structural reverse.  The
source guards the application with `if (typeof result === 'string')` and
otherwise continues with the previous text — a failed patch is skipped
silently, which the `| none => content` branch mirrors. -/
def reconstructContentAtVersion (db : Db) (contentId versionId : Nat) : Option String :=
  match db.contentRows.find? (fun r => r.id = contentId) with
  | none => none
  | some row =>
    let diffsToReverse := sortByLe (fun a b => decide (b.id ≤ a.id))
      (db.historyRows.filter (fun r => r.contentId = contentId ∧ versionId < r.id))
    some (diffsToReverse.foldl (fun content d =>
      match applyPatch content (reversePatch d.diff) with
      | some s => s
      | none => content) row.text)

end HistoryManager

/-! ## Audit log (`audit.ts`, class `AuditManager`) -/

namespace AuditManager

/-- One field change handed to the audit log by the metadata codec. -/
structure Change where
  field : String
  oldValue : Option JVal
  newValue : Option JVal
deriving DecidableEq

/-- `logChange`: append one entry; a value absent (`undefined`) at either side
is stored as SQL NULL, otherwise JSON-encoded. -/
def logChange (db : Db) (field : String) (oldValue newValue : Option JVal) : Db :=
  { db with
    auditRows := db.auditRows ++
      [⟨db.nextAuditId, field, serializeOptJ oldValue, serializeOptJ newValue, db.clock⟩],
    nextAuditId := db.nextAuditId + 1,
    clock := db.clock + 1 }

/-- `logChanges`: append many entries in one transaction. -/
def logChanges (db : Db) (changes : List Change) : Db :=
  changes.foldl (fun d c => logChange d c.field c.oldValue c.newValue) db

/-- `getAuditTrail`: all entries, `ORDER BY changed_at DESC` (newest first). -/
def getAuditTrail (db : Db) : List AuditRow :=
  sortByLe (fun a b => decide (b.changedAt ≤ a.changedAt)) db.auditRows

/-- `getAuditCount`. -/
def getAuditCount (db : Db) : Nat := db.auditRows.length

end AuditManager

/-! ## Artifact store (`artifacts.ts`, class `ArtifactManager`) -/

namespace ArtifactManager

/-- `addArtifact`: insert a row, return `lastInsertRowid`. -/
def addArtifact (db : Db) (atype : String) (data : Option String)
    (metadata : Option (List (String × String))) : Nat × Db :=
  (db.nextArtifactId,
    { db with
      artifactRows := db.artifactRows ++
        [⟨db.nextArtifactId, atype, data, metadata, db.clock⟩],
      nextArtifactId := db.nextArtifactId + 1,
      clock := db.clock + 1 })

/-- The row `ORDER BY created_at DESC LIMIT 1` picks (the logical clock is
strictly monotone, so the latest row is unique). -/
def pickLatest (rows : List ArtifactRow) : Option ArtifactRow :=
  rows.foldl (fun acc r =>
    match acc with
    | none => some r
    | some b => if b.createdAt < r.createdAt then some r else some b) none

/-- `getArtifact`: most recently created artifact of the type, or `null`. -/
def getArtifact (db : Db) (atype : String) : Option ArtifactRow :=
  pickLatest (db.artifactRows.filter (fun r => r.atype = atype))

/-- `hasArtifact`: existence check. -/
def hasArtifact (db : Db) (atype : String) : Bool :=
  db.artifactRows.any (fun r => r.atype = atype)

/-- The raw-transcript payload (`RawTranscriptData` in `types.ts`).  Number
fields (`duration`, `confidence`) are carried as their decimal text. -/
structure RawTranscriptData where
  text : String
  model : Option String := none
  duration : Option String := none
  audioFile : Option String := none
  audioHash : Option String := none
  transcribedAt : Option String := none
  confidence : Option String := none
deriving DecidableEq

/-- JavaScript truthiness of an optional string field (`undefined` and the
empty string are falsy). -/
def truthyStr : Option String → Bool
  | some s => s ≠ ""
  | none => false

/-- JavaScript truthiness of an optional number field carried as decimal text
(`undefined` and `0` are falsy). -/
def truthyNum : Option String → Bool
  | some s => s ≠ "0" && s ≠ ""
  | none => false

/-- The side-metadata object `setRawTranscript` assembles: each field is added
only when truthy, in source order. -/
def rawMetaPairs (d : RawTranscriptData) : List (String × String) :=
  (if truthyStr d.model then [("model", d.model.getD "")] else []) ++
  (if truthyNum d.duration then [("duration", d.duration.getD "")] else []) ++
  (if truthyStr d.audioFile then [("audioFile", d.audioFile.getD "")] else []) ++
  (if truthyStr d.audioHash then [("audioHash", d.audioHash.getD "")] else []) ++
  (if truthyStr d.transcribedAt then [("transcribedAt", d.transcribedAt.getD "")] else []) ++
  (if truthyNum d.confidence then [("confidence", d.confidence.getD "")] else [])

/-- `setRawTranscript`: store the text as a `raw_transcript` artifact blob with
the side metadata.  This component performs no write-once enforcement — that
is the orchestrator's job. -/
def setRawTranscript (db : Db) (d : RawTranscriptData) : Nat × Db :=
  addArtifact db "raw_transcript" (some d.text) (some (rawMetaPairs d))

/-- `getRawTranscript`: read back the most recent `raw_transcript` artifact. -/
def getRawTranscript (db : Db) : Option RawTranscriptData :=
  match getArtifact db "raw_transcript" with
  | none => none
  | some a =>
    match a.data with
    | none => none
    | some text =>
      let meta := a.metadata.getD []
      some { text := text,
             model := lookupAssoc meta "model",
             duration := lookupAssoc meta "duration",
             audioFile := lookupAssoc meta "audioFile",
             audioHash := lookupAssoc meta "audioHash",
             transcribedAt := lookupAssoc meta "transcribedAt",
             confidence := lookupAssoc meta "confidence" }

/-- `hasRawTranscript`. -/
def hasRawTranscript (db : Db) : Bool := hasArtifact db "raw_transcript"

end ArtifactManager

/-! ## Enhancement log (`enhancementLog.ts`, class `EnhancementLogManager`)

These operate on the `enhancement_log` rows of the state; `logStepInsert`
above models the fact that on a file created by this package's own schema the
backing table is missing and the INSERT throws.
-/

namespace EnhancementLogManager

/-- `logStep`: append one immutable entry; `timestamp` is the caller-supplied
time as its ISO-8601 text (`timestamp.toISOString()`). -/
def logStep (db : Db) (timestamp phase action : String)
    (details entities : Option String) : Db :=
  { db with
    enhRows := db.enhRows ++
      [⟨db.nextEnhId, timestamp, phase, action, details, entities⟩],
    nextEnhId := db.nextEnhId + 1 }

/-- One element of a `logSteps` batch. -/
structure Step where
  timestamp : String
  phase : String
  action : String
  details : Option String := none
  entities : Option String := none
deriving DecidableEq

/-- `logSteps`: batch insert in one transaction. -/
def logSteps (db : Db) (steps : List Step) : Db :=
  steps.foldl (fun d s => logStep d s.timestamp s.phase s.action s.details s.entities) db

/-- The WHERE clause built from the optional `phase`/`action` filters. -/
def matchesOpts (phaseOpt actionOpt : Option String) (r : EnhRow) : Bool :=
  (match phaseOpt with
   | some p => r.phase = p
   | none => true) &&
  (match actionOpt with
   | some a => r.action = a
   | none => true)

/-- The comparator of `ORDER BY timestamp ASC` (bytewise text comparison; for
ISO-8601 UTC texts this coincides with chronological order). -/
def tsLeb (a b : EnhRow) : Bool := leStr a.timestamp b.timestamp

/-- `getEnhancementLog`: filter by the options, `ORDER BY timestamp ASC`. -/
def getEnhancementLog (db : Db) (phaseOpt actionOpt : Option String) : List EnhRow :=
  sortByLe tsLeb (db.enhRows.filter (matchesOpts phaseOpt actionOpt))

/-- `getLogCount`. -/
def getLogCount (db : Db) : Nat := db.enhRows.length

/-- `clearLog`. -/
def clearLog (db : Db) : Db := { db with enhRows := [] }

end EnhancementLogManager

/-! ## Metadata codec (`metadata.ts`) -/

/-- The metadata keys stored as plain strings (`SIMPLE_STRING_KEYS`). -/
def SIMPLE_STRING_KEYS : List String :=
  ["id", "title", "project", "projectId", "recordingTime", "duration",
   "audioFile", "audioHash", "errorDetails"]

/-- The metadata keys stored as JSON (`JSON_KEYS`). -/
def JSON_KEYS : List String := ["tags", "routing", "history", "tasks", "entities"]

/-- `INSERT OR REPLACE INTO metadata (key, value, ...)`: replace the row in
place when the key exists, else append. -/
def upsertRow (rows : List (String × String)) (k v : String) : List (String × String) :=
  if rows.any (fun p => p.1 = k) then
    rows.map (fun p => if p.1 = k then (k, v) else p)
  else rows ++ [(k, v)]

/-- Replace-or-append on a JS object (`{...metadata, id}`). -/
def upsertAssoc (l : List (String × JVal)) (k : String) (v : JVal) : List (String × JVal) :=
  if l.any (fun p => p.1 = k) then
    l.map (fun p => if p.1 = k then (k, v) else p)
  else l ++ [(k, v)]

/-- `loadMetadata`: decode the key-value rows into a metadata record.  The
`id` key follows `dataMap.get('id') || randomUUID()` — when the row is absent
(or empty, JS falsiness) a fresh UUID is synthesized; the nondeterministic
`randomUUID()` draw is passed in as `freshUuid`.  Simple string keys are taken
verbatim when present; `date` becomes a `Date` of the stored ISO text;
`status` stays a string; `confidence` is `parseFloat` of its decimal text; the
JSON keys are `JSON.parse`d (with ISO-date rehydration for `history` and
`tasks`), which for values written by this store reproduces a value whose
canonical JSON is the stored text. -/
def loadMetadata (rows : List (String × String)) (freshUuid : String) :
    List (String × JVal) :=
  let idv := match lookupAssoc rows "id" with
    | some s => if s = "" then freshUuid else s
    | none => freshUuid
  [("id", JVal.str idv)] ++
  (SIMPLE_STRING_KEYS.filter (fun k => k ≠ "id")).filterMap
    (fun k => (lookupAssoc rows k).map (fun v => (k, JVal.str v))) ++
  (match lookupAssoc rows "date" with
   | some v => if v ≠ "" then [("date", JVal.date v)] else []
   | none => []) ++
  (match lookupAssoc rows "status" with
   | some v => if v ≠ "" then [("status", JVal.str v)] else []
   | none => []) ++
  (match lookupAssoc rows "confidence" with
   | some v => if v ≠ "" then [("confidence", JVal.num v)] else []
   | none => []) ++
  JSON_KEYS.filterMap (fun k =>
    match lookupAssoc rows k with
    | some v => if v ≠ "" then some (k, JVal.obj v) else none
    | none => none)

/-- The per-value serialization of `updateMetadata`: a `Date` under the `date`
key becomes its ISO text; other objects (including `Date`s under other keys)
become `JSON.stringify`; everything else `String(value)`. -/
def storeRender (key : String) (v : JVal) : String :=
  match v with
  | JVal.date iso => if key = "date" then iso else "\"" ++ iso ++ "\""
  | JVal.obj c => c
  | JVal.str s => s
  | JVal.num s => s

/-- The per-key loop of `updateMetadata`: skip a field whose new value is
canonical-JSON-equal to the loaded current value (`JSON.stringify(oldValue)
=== JSON.stringify(newValue)`); otherwise record the change and upsert the
serialized row.  `current` is loaded once before the loop. -/
def updateMetadataGo (current : List (String × JVal)) (rows : List (String × String)) :
    List (String × JVal) → List AuditManager.Change × List (String × String)
  | [] => ([], rows)
  | (k, v) :: rest =>
    let old := lookupAssoc current k
    if serializeOptJ old = some (serializeJ v) then
      updateMetadataGo current rows rest
    else
      let rows1 := upsertRow rows k (storeRender k v)
      let (cs, rs) := updateMetadataGo current rows1 rest
      (⟨k, old, some v⟩ :: cs, rs)

/-- `updateMetadata`: load the current record, write only genuinely changed
present fields, and return the ordered change list for the caller to audit. -/
def updateMetadata (db : Db) (updates : List (String × JVal)) (freshUuid : String) :
    List AuditManager.Change × Db :=
  let current := loadMetadata db.metadataRows freshUuid
  let (cs, rows1) := updateMetadataGo current db.metadataRows updates
  (cs, { db with metadataRows := rows1 })

/-- `saveMetadata`: upsert every present field over the fixed key lists, with
the same per-kind encoding as `storeRender` (plain strings verbatim, dates as
ISO text, enums verbatim, numbers as decimal text, structured fields as
canonical JSON); absent fields are skipped. -/
def saveMetadata (db : Db) (meta : List (String × JVal)) : Db :=
  let keys := SIMPLE_STRING_KEYS ++ ["date", "status", "confidence"] ++ JSON_KEYS
  let rows := keys.foldl (fun rs k =>
    match lookupAssoc meta k with
    | some v => upsertRow rs k (storeRender k v)
    | none => rs) db.metadataRows
  { db with metadataRows := rows }

/-! ## Document orchestrator (`transcript.ts`, class `PklTranscript`) -/

/-- The in-memory handle state: the connection (`db`), the fixed access mode,
and the `_metadata`/`_content`/`_contentId` caches. -/
structure Transcript where
  db : Db
  readOnly : Bool
  metadataCache : Option (List (String × JVal)) := none
  contentCache : Option String := none
  contentIdCache : Option Nat := none
deriving DecidableEq

/-- The JavaScript errors thrown by the orchestrator's policy checks. -/
inductive PklError
  | accessViolation
  | writeOnceViolation
deriving DecidableEq

namespace PklTranscript

/-- `PklTranscript.create`: assign an identity when absent
(`metadata.id || randomUUID()`, draw passed as `freshUuid`), persist the
metadata, insert the empty `enhanced` content row, and prime all caches. -/
def create (meta : List (String × JVal)) (freshUuid : String) : Transcript :=
  let metaWithId := match lookupAssoc meta "id" with
    | some (JVal.str s) => if s = "" then upsertAssoc meta "id" (JVal.str freshUuid) else meta
    | some _ => meta
    | none => upsertAssoc meta "id" (JVal.str freshUuid)
  let db1 := saveMetadata {} metaWithId
  let db2 := { db1 with
    contentRows := [⟨db1.nextContentId, "enhanced", "", db1.clock⟩],
    nextContentId := db1.nextContentId + 1,
    clock := db1.clock + 1 }
  { db := db2, readOnly := false, metadataCache := some metaWithId,
    contentCache := some "", contentIdCache := some db1.nextContentId }

/-- The row picked by `SELECT id, text FROM content WHERE type = 'enhanced'
ORDER BY updated_at DESC LIMIT 1`. -/
def pickLatestContent (rows : List ContentRow) : Option ContentRow :=
  rows.foldl (fun acc r =>
    match acc with
    | none => some r
    | some b => if b.updatedAt < r.updatedAt then some r else some b) none

/-- `PklTranscript.open` followed by the private `load()`: cache the decoded
metadata and, when an `enhanced` content row exists, its id and text.  (The
schema initialization/migration driven by `openDatabase` acts on the table
set, modelled separately by `initSchemaTables`.) -/
def openTranscript (db : Db) (readOnly : Bool) (freshUuid : String) : Transcript :=
  let meta := loadMetadata db.metadataRows freshUuid
  match pickLatestContent (db.contentRows.filter (fun r => r.ctype = "enhanced")) with
  | some r =>
    { db := db, readOnly := readOnly, metadataCache := some meta,
      contentCache := some r.text, contentIdCache := some r.id }
  | none =>
    { db := db, readOnly := readOnly, metadataCache := some meta,
      contentCache := none, contentIdCache := none }

/-- The `content` accessor: `this._content ?? ''`. -/
def content (t : Transcript) : String := t.contentCache.getD ""

/-- The `metadata` accessor: loads (drawing `freshUuid` if an id must be
synthesized) and caches only when the cache is empty. -/
def metadataGet (t : Transcript) (freshUuid : String) :
    List (String × JVal) × Transcript :=
  match t.metadataCache with
  | some m => (m, t)
  | none =>
    let m := loadMetadata t.db.metadataRows freshUuid
    (m, { t with metadataCache := some m })

/-- `updateContent`: AccessViolation if read-only; no-op when identical to the
cached text; otherwise, in one transaction, append a diff — unless the old
text is the empty initial string — and update the stored text and cache. -/
def updateContent (t : Transcript) (newContent : String) : Except PklError Transcript :=
  if t.readOnly then Except.error PklError.accessViolation
  else
    let oldContent := t.contentCache.getD ""
    if oldContent = newContent then Except.ok t
    else
      match t.contentIdCache with
      | none =>
        let db1 := { t.db with
          contentRows := t.db.contentRows ++
            [⟨t.db.nextContentId, "enhanced", newContent, t.db.clock⟩],
          nextContentId := t.db.nextContentId + 1,
          clock := t.db.clock + 1 }
        Except.ok { t with
          db := db1,
          contentIdCache := some t.db.nextContentId,
          contentCache := some newContent }
      | some cid =>
        let db1 :=
          if oldContent ≠ "" then
            HistoryManager.saveContentChange t.db cid oldContent newContent
          else t.db
        let db2 := { db1 with
          contentRows := db1.contentRows.map (fun r =>
            if r.id = cid then { r with text := newContent, updatedAt := db1.clock } else r),
          clock := db1.clock + 1 }
        Except.ok { t with db := db2, contentCache := some newContent }

/-- `setRawTranscript`: AccessViolation if read-only, WriteOnceViolation if a
raw transcript already exists, else store it. -/
def setRawTranscript (t : Transcript) (d : ArtifactManager.RawTranscriptData) :
    Except PklError Transcript :=
  if t.readOnly then Except.error PklError.accessViolation
  else if ArtifactManager.hasRawTranscript t.db then Except.error PklError.writeOnceViolation
  else Except.ok { t with db := (ArtifactManager.setRawTranscript t.db d).2 }

/-- The `rawTranscript` accessor. -/
def rawTranscript (t : Transcript) : Option ArtifactManager.RawTranscriptData :=
  ArtifactManager.getRawTranscript t.db

/-- `updateMetadata`: AccessViolation if read-only; persist changed fields,
audit them when any exist, and invalidate the metadata cache — all in one
transaction. -/
def updateMetadata (t : Transcript) (updates : List (String × JVal)) (freshUuid : String) :
    Except PklError Transcript :=
  if t.readOnly then Except.error PklError.accessViolation
  else
    let (changes, db1) := Protokoll.updateMetadata t.db updates freshUuid
    let db2 := if changes.length > 0 then AuditManager.logChanges db1 changes else db1
    Except.ok { t with db := db2, metadataCache := none }

/-- `addArtifact`: AccessViolation if read-only, else insert and return the
new id. -/
def addArtifact (t : Transcript) (atype : String) (data : Option String)
    (metadata : Option (List (String × String))) : Except PklError (Nat × Transcript) :=
  if t.readOnly then Except.error PklError.accessViolation
  else
    let (i, db1) := ArtifactManager.addArtifact t.db atype data metadata
    Except.ok (i, { t with db := db1 })

/-- `getContentHistory`: empty when no stream is loaded. -/
def getContentHistory (t : Transcript) : List HistoryRow :=
  match t.contentIdCache with
  | none => []
  | some cid => HistoryManager.getContentHistory t.db cid

/-- `getContentAtVersion`: `null` when no stream is loaded. -/
def getContentAtVersion (t : Transcript) (versionId : Nat) : Option String :=
  match t.contentIdCache with
  | none => none
  | some cid => HistoryManager.reconstructContentAtVersion t.db cid versionId

/-- `getVersionCount`: `0` when no stream is loaded. -/
def getVersionCount (t : Transcript) : Nat :=
  match t.contentIdCache with
  | none => 0
  | some cid => HistoryManager.getVersionCount t.db cid

/-- `getEnhancementLog`, delegated to the enhancement log manager. -/
def getEnhancementLog (t : Transcript) (phaseOpt actionOpt : Option String) : List EnhRow :=
  EnhancementLogManager.getEnhancementLog t.db phaseOpt actionOpt

end PklTranscript

/-! ## Claim C1: error surfacing in reconstruction -/

/-- C1: refuted — `reconstructContentAtVersion` does not surface an
unrecoverable error when a reversed diff fails to apply.  At a stream whose
stored diff (`createPatch "AAA" "BBB"`) cannot be re-applied in reverse to the
current text `"Current"` (first conjunct: the application fails), the
operation still returns `some "Current"` as an ordinary result (second
conjunct): the `typeof result === 'string'` guard skips the failed patch and
continues, and the `string | null` return type cannot carry an error at
all. -/
theorem c1_reconstruction_silently_skips_failed_patch :
    applyPatch "Current" (reversePatch (createPatch "AAA" "BBB")) = none ∧
    HistoryManager.reconstructContentAtVersion
      { contentRows := [⟨1, "enhanced", "Current", 0⟩],
        historyRows := [⟨1, 1, createPatch "AAA" "BBB", 1⟩] } 1 0 = some "Current" := by
  decide

/-! ## Claim C2: the enhancement-log relation on a fresh document -/

/-- C2: refuted — a freshly created document file does not contain every
relation of the external layout.  The enhancement-log relation belongs to the
layout (first conjunct, spec §6), but the table set produced by the
`SCHEMA_V1` DDL lacks `enhancement_log` (second conjunct); `validateSchema`
still reports pass on such a file because its required-table list omits the
table too (third conjunct); and consequently the INSERT issued by `logStep` on
a freshly created document throws SQLite's `no such table` error instead of
succeeding (fourth conjunct). -/
theorem c2_fresh_document_lacks_enhancement_log :
    "enhancement_log" ∈ EXTERNAL_LAYOUT_RELATIONS ∧
    freshDocumentTables.contains "enhancement_log" = false ∧
    (validateSchema freshDocumentTables).1 = true ∧
    logStepInsert freshDocumentTables {} "2026-02-15T20:00:00.000Z" "transcribe"
        "entity_found" none none =
      Except.error (SqlError.noSuchTable "enhancement_log") := by
  decide

/-! ## Claim C3: diff count of `updateContent` -/

/-- C3: counterexample to the claim as stated.  On a freshly created document
the current content is `""` and `"First version"` differs from it (first
conjunct), yet `updateContent "First version"` leaves the stored diff count at
0 (second conjunct), not at the prior count plus 1 (third conjunct): the first
transition away from the empty initial string is exempt from diff
recording. -/
theorem c3_counterexample_first_transition :
    (PklTranscript.create [] "u").contentCache.getD "" ≠ "First version" ∧
    (PklTranscript.updateContent (PklTranscript.create [] "u") "First version").map
      (fun t => PklTranscript.getVersionCount t) = Except.ok 0 ∧
    (0 : Nat) ≠ PklTranscript.getVersionCount (PklTranscript.create [] "u") + 1 := by
  decide

/-- C3 (amended): for a writable handle with a loaded content stream,
`updateContent` increases the stream's stored diff count by exactly 1 when the
current content differs from the new text and is not the empty initial string;
when the texts are equal, or the current content is the empty string (the
exempt first transition), the count is unchanged. -/
theorem c3_updateContent_diff_count (t : Transcript) (cid : Nat) (newContent : String)
    (hro : t.readOnly = false) (hcid : t.contentIdCache = some cid) :
    (PklTranscript.updateContent t newContent).map (fun s => PklTranscript.getVersionCount s) =
      Except.ok (PklTranscript.getVersionCount t +
        (if t.contentCache.getD "" = newContent then 0
         else if t.contentCache.getD "" = "" then 0 else 1)) := by
  by_cases he : t.contentCache.getD "" = newContent
  · simp [PklTranscript.updateContent, Except.map, hro, he]
  · by_cases hz : t.contentCache.getD "" = ""
    · have he2 : ¬ ("" : String) = newContent := by rw [hz] at he; exact he
      simp [PklTranscript.updateContent, Except.map, hro, he, hz, he2, hcid,
        PklTranscript.getVersionCount, HistoryManager.getVersionCount]
    · simp [PklTranscript.updateContent, Except.map, hro, he, hz, hcid,
        PklTranscript.getVersionCount, HistoryManager.getVersionCount,
        HistoryManager.saveContentChange, List.filter_append]

/-- C3 witness: a handle whose current content is `"x"`, updated to `"y"`,
gains exactly one stored diff. -/
theorem c3_updateContent_diff_count_witness :
    (PklTranscript.updateContent
      { db := { contentRows := [⟨1, "enhanced", "x", 0⟩], nextContentId := 2, clock := 1 },
        readOnly := false, contentCache := some "x", contentIdCache := some 1 } "y").map
      (fun s => PklTranscript.getVersionCount s) =
      Except.ok (PklTranscript.getVersionCount
        { db := { contentRows := [⟨1, "enhanced", "x", 0⟩], nextContentId := 2, clock := 1 },
          readOnly := false, contentCache := some "x", contentIdCache := some 1 } + 1) := by
  have h := c3_updateContent_diff_count
    { db := { contentRows := [⟨1, "enhanced", "x", 0⟩], nextContentId := 2, clock := 1 },
      readOnly := false, contentCache := some "x", contentIdCache := some 1 } 1 "y" rfl rfl
  revert h
  decide

/-! ## Claim C4: the create/update/update scenario and diff reversal -/

/-- C4: on every newly created document (any metadata, any drawn UUID),
`updateContent "First version"` followed by `updateContent "Second version"`
leaves the content history with exactly one diff — the patch from
`"First version"` to `"Second version"`, on stream 1; the empty→first
transition recorded none — and structurally reversing that one diff and
applying it to `"Second version"` yields `"First version"`. -/
theorem c4_two_updates_one_reversible_diff (meta : List (String × JVal)) (freshUuid : String) :
    ((PklTranscript.updateContent (PklTranscript.create meta freshUuid) "First version").bind
      (fun t => PklTranscript.updateContent t "Second version")).map
      (fun t => (PklTranscript.getContentHistory t).map (fun d => (d.contentId, d.diff))) =
      Except.ok [(1, createPatch "First version" "Second version")] ∧
    applyPatch "Second version" (reversePatch (createPatch "First version" "Second version")) =
      some "First version" := by
  constructor
  · rfl
  · decide

/-! ## Claim C5: write-once raw source -/

/-- C5: on every writable document without a raw source, the first
`setRawTranscript` succeeds; the second raises WriteOnceViolation; and
afterward (the failed call produced no new state) the first payload's text is
still what `rawTranscript` returns. -/
theorem c5_raw_source_write_once (t : Transcript) (d1 d2 : ArtifactManager.RawTranscriptData)
    (hro : t.readOnly = false) (hna : ArtifactManager.hasRawTranscript t.db = false) :
    ∃ t1, PklTranscript.setRawTranscript t d1 = Except.ok t1 ∧
      PklTranscript.setRawTranscript t1 d2 = Except.error PklError.writeOnceViolation ∧
      (PklTranscript.rawTranscript t1).map (fun r => r.text) = some d1.text := by
  refine ⟨{ t with db := (ArtifactManager.setRawTranscript t.db d1).2 }, ?_, ?_, ?_⟩
  · simp [PklTranscript.setRawTranscript, hro, hna]
  · have h1 : ArtifactManager.hasRawTranscript
        ((ArtifactManager.setRawTranscript t.db d1).2) = true := by
      simp [ArtifactManager.setRawTranscript, ArtifactManager.addArtifact,
        ArtifactManager.hasRawTranscript, ArtifactManager.hasArtifact, List.any_append]
    simp [PklTranscript.setRawTranscript, hro, h1]
  · have hfil : t.db.artifactRows.filter (fun r => r.atype = "raw_transcript") = [] := by
      simp only [ArtifactManager.hasRawTranscript, ArtifactManager.hasArtifact] at hna
      rw [List.filter_eq_nil_iff]
      intro a ha
      have := List.any_eq_false.mp hna a ha
      simpa using this
    simp [PklTranscript.rawTranscript, ArtifactManager.getRawTranscript,
      ArtifactManager.getArtifact, ArtifactManager.setRawTranscript,
      ArtifactManager.addArtifact, List.filter_append, hfil, ArtifactManager.pickLatest]

/-- C5 witness: a fresh document, raw payloads `"First raw"` and
`"Second raw"`. -/
theorem c5_raw_source_write_once_witness :
    ∃ t1, PklTranscript.setRawTranscript (PklTranscript.create [] "u")
        { text := "First raw" } = Except.ok t1 ∧
      PklTranscript.setRawTranscript t1 { text := "Second raw" } =
        Except.error PklError.writeOnceViolation ∧
      (PklTranscript.rawTranscript t1).map (fun r => r.text) = some "First raw" :=
  c5_raw_source_write_once (PklTranscript.create [] "u")
    { text := "First raw" } { text := "Second raw" } rfl rfl

/-! ## Claim C6: read-only documents reject mutations -/

/-- C6: on a read-only handle, `updateContent`, `updateMetadata` and
`addArtifact` all raise AccessViolation — the read-only check precedes every
write, so a rejected call returns only the error and no successor state: no
row of any relation is touched. -/
theorem c6_readonly_rejects_mutations (t : Transcript) (hro : t.readOnly = true) :
    (∀ s, PklTranscript.updateContent t s = Except.error PklError.accessViolation) ∧
    (∀ upd u, PklTranscript.updateMetadata t upd u = Except.error PklError.accessViolation) ∧
    (∀ ty d m, PklTranscript.addArtifact t ty d m = Except.error PklError.accessViolation) := by
  refine ⟨fun s => ?_, fun upd u => ?_, fun ty d m => ?_⟩ <;>
    simp [PklTranscript.updateContent, PklTranscript.updateMetadata,
      PklTranscript.addArtifact, hro]

/-- C6 witness: a document opened read-only on an empty state rejects each of
the three mutations. -/
theorem c6_readonly_rejects_mutations_witness :
    PklTranscript.updateContent (PklTranscript.openTranscript {} true "u") "x" =
      Except.error PklError.accessViolation ∧
    PklTranscript.updateMetadata (PklTranscript.openTranscript {} true "u") [] "u" =
      Except.error PklError.accessViolation ∧
    PklTranscript.addArtifact (PklTranscript.openTranscript {} true "u") "a" none none =
      Except.error PklError.accessViolation :=
  have h := c6_readonly_rejects_mutations (PklTranscript.openTranscript {} true "u") rfl
  ⟨h.1 "x", h.2.1 [] "u", h.2.2 "a" none none⟩

/-! ## Claim C7: no-op metadata updates write nothing -/

/-- The per-key loop of `updateMetadata` skips every field whose new value is
canonical-JSON-equal to the loaded current value, leaving the rows untouched
and the change list empty. -/
theorem updateMetadataGo_skip_all (current : List (String × JVal))
    (rows : List (String × String)) :
    ∀ updates : List (String × JVal),
      (∀ p ∈ updates, serializeOptJ (lookupAssoc current p.1) = some (serializeJ p.2)) →
      updateMetadataGo current rows updates = ([], rows) := by
  intro updates
  induction updates with
  | nil => intro _; rfl
  | cons p rest ih =>
    intro h
    cases p with
    | mk k v =>
      have hp : serializeOptJ (lookupAssoc current k) = some (serializeJ v) :=
        h (k, v) (List.mem_cons_self (k, v) rest)
      simp only [updateMetadataGo, hp, if_pos]
      exact ih (fun q hq => h q (List.mem_cons_of_mem (k, v) hq))

/-- C7: a writable `updateMetadata` whose present fields are all deep-equal
(by canonical JSON) to their currently loaded values produces no change
entries, hence no audit rows, and no persisted write at all: the database
state is returned unchanged. -/
theorem c7_noop_update_zero_writes (t : Transcript) (updates : List (String × JVal))
    (freshUuid : String) (hro : t.readOnly = false)
    (heq : ∀ p ∈ updates,
      serializeOptJ (lookupAssoc (loadMetadata t.db.metadataRows freshUuid) p.1) =
        some (serializeJ p.2)) :
    (PklTranscript.updateMetadata t updates freshUuid).map (fun s => s.db) =
      Except.ok t.db := by
  have hgo := updateMetadataGo_skip_all (loadMetadata t.db.metadataRows freshUuid)
    t.db.metadataRows updates heq
  simp [PklTranscript.updateMetadata, Except.map, hro, Protokoll.updateMetadata, hgo]

/-- C7 witness: updating `title` to the value it already has writes nothing. -/
theorem c7_noop_update_zero_writes_witness :
    (PklTranscript.updateMetadata
      { db := { metadataRows := [("id", "abc"), ("title", "T")] }, readOnly := false }
      [("title", JVal.str "T")] "u").map (fun s => s.db) =
      Except.ok ({ metadataRows := [("id", "abc"), ("title", "T")] } : Db) := by
  have h := c7_noop_update_zero_writes
    { db := { metadataRows := [("id", "abc"), ("title", "T")] }, readOnly := false }
    [("title", JVal.str "T")] "u" rfl (by decide)
  exact h

/-! ## Claim C8: enhancement log ordering -/

/-- C8: `getEnhancementLog`, with or without phase/action filters, returns
exactly the matching entries (a permutation of the filtered rows) sorted
ascending by the caller-supplied timestamp field — and in particular logging
timestamps T3, T1, T2 in that call order reads back T1, T2, T3, not the
insertion order. -/
theorem c8_enhancement_log_sorted_by_timestamp :
    (∀ (db : Db) (phaseOpt actionOpt : Option String),
      SortedLe EnhancementLogManager.tsLeb
        (EnhancementLogManager.getEnhancementLog db phaseOpt actionOpt) ∧
      (EnhancementLogManager.getEnhancementLog db phaseOpt actionOpt).Perm
        (db.enhRows.filter (EnhancementLogManager.matchesOpts phaseOpt actionOpt))) ∧
    (EnhancementLogManager.getEnhancementLog
      (EnhancementLogManager.logStep
        (EnhancementLogManager.logStep
          (EnhancementLogManager.logStep {} "2026-02-15T20:02:00.000Z" "enhance" "a3"
            none none)
          "2026-02-15T20:00:00.000Z" "enhance" "a1" none none)
        "2026-02-15T20:01:00.000Z" "enhance" "a2" none none) none none).map
      (fun r => r.timestamp) =
      ["2026-02-15T20:00:00.000Z", "2026-02-15T20:01:00.000Z",
       "2026-02-15T20:02:00.000Z"] := by
  constructor
  · intro db phaseOpt actionOpt
    constructor
    · exact sorted_sortByLe EnhancementLogManager.tsLeb
        (fun x y => leChars_total x.timestamp.toList y.timestamp.toList)
        (fun x y z hxy hyz => leChars_trans x.timestamp.toList y.timestamp.toList
          z.timestamp.toList hxy hyz) _
    · exact perm_sortByLe _ _
  · decide

/-! ## Claim C9: identity synthesis on identity-less documents -/

/-- C9: loading a document state with no identity key synthesizes the freshly
drawn UUID in-memory only: the database is unchanged (first conjunct), the
loaded record's id is the draw itself (second conjunct), so two loads with
different draws return different identities (third conjunct) — the result is
not a deterministic function of the stored state. -/
theorem c9_identityless_load_not_deterministic (t : Transcript) (u v : String)
    (hid : lookupAssoc t.db.metadataRows "id" = none)
    (hcache : t.metadataCache = none) :
    (PklTranscript.metadataGet t u).2.db = t.db ∧
    lookupAssoc (PklTranscript.metadataGet t u).1 "id" = some (JVal.str u) ∧
    (u ≠ v →
      lookupAssoc (PklTranscript.metadataGet t u).1 "id" ≠
        lookupAssoc (PklTranscript.metadataGet t v).1 "id") := by
  have hload : ∀ w, lookupAssoc (loadMetadata t.db.metadataRows w) "id" =
      some (JVal.str w) := by
    intro w
    unfold loadMetadata
    rw [hid]
    simp [lookupAssoc]
  refine ⟨?_, ?_, ?_⟩
  · simp [PklTranscript.metadataGet, hcache]
  · simp [PklTranscript.metadataGet, hcache, hload]
  · intro huv
    simp [PklTranscript.metadataGet, hcache, hload]
    exact huv

/-- C9 witness: on an empty state, two loads with different drawn UUIDs return
different identities. -/
theorem c9_identityless_load_not_deterministic_witness :
    lookupAssoc (PklTranscript.metadataGet { db := {}, readOnly := false } "uuid-a").1 "id" ≠
      lookupAssoc (PklTranscript.metadataGet { db := {}, readOnly := false } "uuid-b").1 "id" :=
  (c9_identityless_load_not_deterministic { db := {}, readOnly := false }
    "uuid-a" "uuid-b" rfl rfl).2.2 (by decide)

/-! ## Claim C10: the content accessor is total -/

/-- C10: the content accessor never fails and never returns null: on any
handle with an empty content cache it returns `""` (third conjunct), and
opening a state with no `enhanced` content row produces exactly such a handle
(first conjunct), whose content reads as `""` (second conjunct). -/
theorem c10_content_total_empty_default (db : Db) (ro : Bool) (u : String)
    (h : db.contentRows.filter (fun r => r.ctype = "enhanced") = []) :
    (PklTranscript.openTranscript db ro u).contentCache = none ∧
    PklTranscript.content (PklTranscript.openTranscript db ro u) = "" ∧
    (∀ t : Transcript, t.contentCache = none → PklTranscript.content t = "") := by
  refine ⟨?_, ?_, ?_⟩
  · simp [PklTranscript.openTranscript, h, PklTranscript.pickLatestContent]
  · simp [PklTranscript.openTranscript, h, PklTranscript.pickLatestContent,
      PklTranscript.content]
  · intro t ht
    simp [PklTranscript.content, ht]

/-- C10 witness: opening an empty state read-write yields content `""`. -/
theorem c10_content_total_empty_default_witness :
    PklTranscript.content (PklTranscript.openTranscript {} false "u") = "" :=
  (c10_content_total_empty_default {} false "u" rfl).2.1

end Protokoll


